import Mathlib

/-!
Shallow embedding of the core pipeline of `plot_suspicious_returns.py`:
row cleaning (`get_prices_open_close_adj_dates`), overnight/intraday return
decomposition (`compute_returns_overnight_intraday`), and compounding
(`cumulate_returns`).

Modelling conventions:
* Python floats are modelled as exact rationals (ℚ); Python division is
  modelled by ℚ division (total, with junk value 0 at zero denominators);
  where the code would raise `ZeroDivisionError` we track the zero
  denominator explicitly in the safety predicate `DivSafe`.
* A `datetime(y, m, d)` is modelled as its day number (days since
  1970-01-01, computed by `daysFromCivil`); `timedelta(days = n)` becomes
  the integer `n`, and `date - date < timedelta(days=14)` becomes `< 14`.
* A CSV data line is modelled as a `RawRow`: its date, the textual fields
  `openS/highS/lowS/closeS` exactly as they stand in the line (the code's
  stale-row filter `len(set(d[1:5])) > 1` compares these strings), and the
  parsed numeric values `open/close/adjClose` (the code's `float(d[1])`,
  `float(d[4])`, `float(d[5])`).  `Row.wf` ties each textual field to its
  numeric value through the decimal parser `parseDec`.  A line that is
  empty or contains a `"null"` marker is flagged by `isNull`.
* The header line and its assertion are the acquisition collaborator's
  contract and are outside the embedding: `cleanRowsE` consumes the data
  lines `original_data[1:]`.
* Uncaught Python exceptions are modelled by `Except`: the
  `assert all(p > 0 for p in price_close_adj)` failure is
  `CleanError.integrity`, and a `ValueError` from `[...].index(True)` or
  `max([])` is `CleanError.valueError`.  The integrity assert runs before
  the `d0`/`d1` index computations, as in the source.
-/

namespace SuspiciousReturns

/-- Day number of the civil date `y-m-d` (proleptic Gregorian, epoch
1970-01-01).  Standard days-from-civil computation; all divisions below act
on nonnegative arguments, where `Int` division agrees with floor. -/
def daysFromCivil (y m d : Int) : Int :=
  let y' := y - (if m ≤ 2 then 1 else 0)
  let era := (if 0 ≤ y' then y' else y' - 399) / 400
  let yoe := y' - era * 400
  let doy := (153 * (m + (if 2 < m then -3 else 9)) + 2) / 5 + d - 1
  let doe := yoe * 365 + yoe / 4 - yoe / 100 + doy
  era * 146097 + doe - 719468

/-- Constant `DEFAULT_START_DATE = datetime(1990, 1, 1)`. -/
def DEFAULT_START_DATE : Int := daysFromCivil 1990 1 1

/-- Constant `DEFAULT_END_DATE = datetime(2021, 12, 31)`. -/
def DEFAULT_END_DATE : Int := daysFromCivil 2021 12 31

/-- One data line of the CSV input (`Date,Open,High,Low,Close,Adj Close,Volume`).
`openS/highS/lowS/closeS` are the textual fields `d[1:5]` of the line;
`open`, `close`, `adjClose` are `float(d[1])`, `float(d[4])`, `float(d[5])`;
`date` is `datetime(*map(int, d[0].split('-')))` as a day number.  `isNull`
records that the line is empty or contains the substring `"null"`. -/
structure RawRow where
  date : Int
  openS : String
  highS : String
  lowS : String
  closeS : String
  price_open : ℚ
  price_close : ℚ
  price_close_adj : ℚ
  isNull : Bool

deriving Repr, DecidableEq

/-- Syntactic parse of an optionally signed decimal numeral (digits,
optional point, digits): the scaled integer numerator and the number of
fractional digits; `none` on malformed input. -/
def parseDecRaw (s : String) : Option (Int × Nat) :=
  let core (cs : List Char) : Option (Int × Nat) :=
    let intPart := cs.takeWhile (·.isDigit)
    let rest := cs.dropWhile (·.isDigit)
    let fracPart : Option (List Char) :=
      match rest with
      | [] => some []
      | '.' :: fs => if fs.all (·.isDigit) then some fs else none
      | _ => none
    match fracPart with
    | none => none
    | some fs =>
      if intPart.isEmpty ∧ fs.isEmpty then none
      else some ((intPart ++ fs).foldl
        (fun acc c => 10 * acc + ((c.toNat : Int) - ('0'.toNat : Int))) 0,
        fs.length)
  match s.toList with
  | '-' :: cs => (core cs).map (fun p => (-p.1, p.2))
  | cs => core cs

/-- The rational denoted by a parsed numeral: numerator over `10 ^ k`. -/
def decValue (p : Int × Nat) : ℚ := (p.1 : ℚ) / 10 ^ p.2

/-- The exact rational a decimal numeral denotes; `none` on malformed
input.  This is the fragment of Python `float()` that provider price
fields use. -/
def parseDec (s : String) : Option ℚ := (parseDecRaw s).map decValue

/-- A row is well formed when each textual price field parses to the
numeric value carried alongside it (high and low are only ever used
textually, so only open/close/adjClose have numeric counterparts). -/
def Row.wf (r : RawRow) : Prop :=
  parseDec r.openS = some r.price_open ∧ parseDec r.closeS = some r.price_close

/-- First line comprehension: keep a line iff it is non-empty, carries no
`"null"` marker, and its date is not in `bad_data_dates`. -/
def passesNullBad (bad : List Int) (r : RawRow) : Bool :=
  !r.isNull && !(bad.contains r.date)

/-- Second comprehension: `len(set(d[1:5])) > 1`, i.e. keep a line unless
its four textual price fields open, high, low, close all coincide. -/
def passesFlat (r : RawRow) : Bool :=
  !(r.openS == r.highS && r.highS == r.lowS && r.lowS == r.closeS)

/-- Third comprehension: `float(d[1]) > 0`. -/
def passesOpen (r : RawRow) : Bool :=
  decide (0 < r.price_open)

/-- The three list comprehensions of `get_prices_open_close_adj_dates`, in
source order. -/
def filteredRows (rows : List RawRow) (bad : List Int) : List RawRow :=
  ((rows.filter (passesNullBad bad)).filter passesFlat).filter passesOpen

/-- Python `[...].index(True)`: index of the first element satisfying `p`, or
`none` (Python: `ValueError`) when there is none. -/
def firstIdx (p : α → Bool) : List α → Option Nat
  | [] => none
  | x :: xs => if p x then some 0 else (firstIdx p xs).map (· + 1)

/-- Python `max(dates_datetime)`: maximum of the dates, `none` (a
`ValueError`) on an empty list. -/
def maxDate : List RawRow → Option Int
  | [] => none
  | r :: rs => some (rs.foldl (fun m x => max m x.date) r.date)

/-- Predicate `p_open != p_close` (on the parsed floats). -/
def openNeqClose (r : RawRow) : Bool := decide (r.price_open ≠ r.price_close)

/-- Predicate `d >= start_date`. -/
def afterStart (s : Int) (r : RawRow) : Bool := decide (s ≤ r.date)

/-- Predicate `d > end_date`. -/
def afterEnd (e : Int) (r : RawRow) : Bool := decide (e < r.date)

/-- Uncaught exceptions of `get_prices_open_close_adj_dates`:
`integrity` is the failed `assert all(p > 0 for p in price_close_adj)`;
`valueError` is a `ValueError` from `[...].index(True)` or `max([])`. -/
inductive CleanError where
  | integrity
  | valueError

deriving Repr, DecidableEq

/-- Function `get_prices_open_close_adj_dates` at row granularity: which data lines
survive, in order.  The source projects the surviving rows to four parallel
lists (`price_open`, `price_close`, `price_close_adj`, `dates_datetime`);
`cleanSeries` below performs that projection. -/
def cleanRowsE (rows : List RawRow) (startDate? endDate? : Option Int)
    (bad : List Int) : Except CleanError (List RawRow) :=
  -- `start_date or DEFAULT_START_DATE`, `end_date or DEFAULT_END_DATE`
  let s := startDate?.getD DEFAULT_START_DATE
  let e := endDate?.getD DEFAULT_END_DATE
  let data := filteredRows rows bad
  -- assert all(p > 0 for p in price_close_adj)
  if data.any (fun r => decide (r.price_close_adj ≤ 0)) then .error .integrity
  else
    match firstIdx openNeqClose data, firstIdx (afterStart s) data,
        maxDate data with
    | some a, some b, some m =>
      let d0 := max a b
      match (if e < m then firstIdx (afterEnd e) data
             else some data.length) with
      | some d1 =>
        .ok (if 1 < d0 ∨ d1 < data.length
             then (data.drop d0).take (d1 - d0) else data)
      | none => .error .valueError
    | _, _, _ => .error .valueError

/-- The source's return value: the four parallel lists
`(price_open, price_close, price_close_adj, dates_datetime)`. -/
def cleanSeries (rows : List RawRow) (startDate? endDate? : Option Int)
    (bad : List Int) : Except CleanError (List ℚ × List ℚ × List ℚ × List Int) :=
  (cleanRowsE rows startDate? endDate? bad).map fun out =>
    (out.map (·.price_open), out.map (·.price_close), out.map (·.price_close_adj), out.map (·.date))

/-- Function `compute_returns_overnight_intraday`, returning
`(returns_overnight, returns_intraday)`.  The source iterates
`for i in range(1, n_days)`; here `i = j + 1` with `j` over
`range (n-1)`. -/
def compute_returns_overnight_intraday (po pc pca : List ℚ) (dts : List Int) :
    List ℚ × List ℚ :=
  let n := dts.length
  if n = 0 then ([], [])
  else
    -- returns_intraday = [price_close[i] / price_open[i] - 1 for i in range(n_days)]
    let ri := (List.range n).map fun i => pc.getD i 0 / po.getD i 0 - 1
    -- returns_close_to_close = [0.] + [pca[i] / pca[i-1] - 1 for i in range(1, n_days)]
    let rcc := (0 : ℚ) ::
      ((List.range (n - 1)).map fun j => pca.getD (j + 1) 0 / pca.getD j 0 - 1)
    -- returns_overnight = [0.] + [(1 + rcc[i]) / (1 + ri[i]) - 1 if gap < 14 days else 0]
    let ro := (0 : ℚ) ::
      ((List.range (n - 1)).map fun j =>
        if dts.getD (j + 1) 0 - dts.getD j 0 < 14
        then (1 + rcc.getD (j + 1) 0) / (1 + ri.getD (j + 1) 0) - 1
        else 0)
    (ro, ri)

/-- The running loop of `cumulate_returns`, with accumulator `r0`. -/
def cumulate_from (r0 : ℚ) : List ℚ → List ℚ
  | [] => []
  | r1 :: rest =>
    ((1 + r0) * (1 + r1) - 1) :: cumulate_from ((1 + r0) * (1 + r1) - 1) rest

/-- Function `cumulate_returns`: `r0 = 0`, then `r0 := (1+r0)*(1+r1) - 1` for each
`r1`, appending each running value. -/
def cumulate_returns (returns : List ℚ) : List ℚ := cumulate_from 0 returns

deriving instance DecidableEq for Except

/-- Build a non-null data line. -/
def mkRow (d : Int) (o h l c : String) (ov cv av : ℚ) : RawRow :=
  { date := d, openS := o, highS := h, lowS := l, closeS := c,
    price_open := ov, price_close := cv, price_close_adj := av, isNull := false }

/-- Two rows inside the default window; the first has `open == close`
(but distinct high, so it passes the stale-row filter), the second has
`open != close`. -/
def exC1 : List RawRow :=
  [mkRow 10000 "5" "6" "5" "5" 5 5 3, mkRow 10001 "5" "6" "5" "6" 5 6 3]

/-- Slice `data[d0:d1]`. -/
def claimedWindow (data : List RawRow) (d0 d1 : Nat) : List RawRow :=
  (data.drop d0).take (d1 - d0)

/-- C1 as stated: a successful clean always returns exactly the rows of
the filtered sequence with indices in `[d0, d1)`, where
`d0 = max(first index with open != close, first index at or after
startDate)` and `d1` is the first index past `endDate` (or the length). -/
def CleanSliceClaim : Prop :=
  ∀ (rows : List RawRow) (s e : Option Int) (bad : List Int)
    (out : List RawRow) (a b : Nat),
    cleanRowsE rows s e bad = .ok out →
    firstIdx openNeqClose (filteredRows rows bad) = some a →
    firstIdx (afterStart (s.getD DEFAULT_START_DATE)) (filteredRows rows bad)
      = some b →
    out = claimedWindow (filteredRows rows bad) (max a b)
      ((firstIdx (afterEnd (e.getD DEFAULT_END_DATE))
        (filteredRows rows bad)).getD (filteredRows rows bad).length)

/-- A row whose four price fields all denote the same rational value. -/
def numericallyFlat (r : RawRow) : Prop :=
  ∃ q : ℚ, parseDec r.openS = some q ∧ parseDec r.highS = some q ∧
    parseDec r.lowS = some q ∧ parseDec r.closeS = some q

/-- A row whose open field parses as `10.0` and whose high field parses as
`10.00`: numerically flat, yet its four fields are not all textually
equal. -/
def exC6flat : RawRow := mkRow 10000 "10.0" "10.00" "10.0" "10.0" 10 10 3

/-- A well-formed companion row with `open != close`. -/
def exC6other : RawRow := mkRow 10001 "5" "7" "5" "6" 5 6 3

def exC6 : List RawRow := [exC6flat, exC6other]

/-- C6 as stated: on well-formed input, any numerically flat row is absent
from a successful clean's result, regardless of its date. -/
def StaleRowClaim : Prop :=
  ∀ (rows : List RawRow) (s e : Option Int) (bad : List Int)
    (out : List RawRow) (r : RawRow),
    (∀ x ∈ rows, Row.wf x) → cleanRowsE rows s e bad = .ok out →
    r ∈ rows → numericallyFlat r → r ∉ out

/-- A textually flat row. -/
def exC6textflat : RawRow := mkRow 10000 "10.0" "10.0" "10.0" "10.0" 10 10 3

/-- The divisions `compute_returns_overnight_intraday` performs on a
series: by `price_open[i]` for every `i` (intraday), and by
`1 + intraday[i]` at every `i = j+1` whose date gap is under 14 days (the
source evaluates the overnight division only under the gap condition). -/
def divSafe (po pc : List ℚ) (dts : List Int) : Prop :=
  (∀ i, i < dts.length → po.getD i 0 ≠ 0) ∧
  ∀ j, j + 1 < dts.length → dts.getD (j + 1) 0 - dts.getD j 0 < 14 →
    1 + (pc.getD (j + 1) 0 / po.getD (j + 1) 0 - 1) ≠ 0

/-- C9 as stated: every series produced by a successful clean is safe for
all of the decomposition's divisions. -/
def DivSafetyClaim : Prop :=
  ∀ (rows : List RawRow) (s e : Option Int) (bad : List Int)
    (out : List RawRow),
    cleanRowsE rows s e bad = .ok out →
    divSafe (out.map (·.price_open)) (out.map (·.price_close))
      (out.map (·.date))

/-- Two rows that survive cleaning although the second has `close = 0`:
its intraday return is `-1`, so the overnight division hits a zero
denominator. -/
def exC9 : List RawRow :=
  [mkRow 10000 "5" "7" "5" "6" 5 6 3, mkRow 10001 "5" "7" "5" "0" 5 0 3]

/-- The tail of `get_plot_data`: the decomposition runs first (it returns
empty lists on an empty series), then
`return PlotData(...) if dates_datetime else None`. -/
def get_plot_data_from_clean (out : List RawRow) :
    Option (List RawRow × List ℚ × List ℚ) :=
  let r := compute_returns_overnight_intraday (out.map (·.price_open))
    (out.map (·.price_close)) (out.map (·.price_close_adj))
    (out.map (·.date))
  if out.map (·.date) = [] then none else some (out, r.1, r.2)

/-- C8 as stated (operative first half): whenever the filters remove every
row, clean returns an explicit empty result. -/
def EmptyCleanClaim : Prop :=
  ∀ (rows : List RawRow) (s e : Option Int) (bad : List Int),
    filteredRows rows bad = [] → cleanRowsE rows s e bad = .ok []

/-- C5 as stated: a second clean of a produced series (same window, no
exclusions) returns the series unchanged. -/
def CleanIdempotentClaim : Prop :=
  ∀ (rows : List RawRow) (s e : Option Int) (bad : List Int)
    (out : List RawRow),
    cleanRowsE rows s e bad = .ok out → cleanRowsE out s e [] = .ok out

/-- Five sorted rows; `startDate` lands on two `open == close` rows that
precede the last `open != close` row, so the first clean slices to the
last three rows and the second clean slices again. -/
def exC5 : List RawRow :=
  [mkRow 10000 "5" "7" "5" "6" 5 6 3, mkRow 10001 "5" "7" "5" "6" 5 6 3,
   mkRow 10010 "5" "7" "5" "5" 5 5 3, mkRow 10011 "5" "7" "5" "5" 5 5 3,
   mkRow 10012 "5" "7" "5" "6" 5 6 3]

/-- What the first clean of `exC5` returns. -/
def exC5out : List RawRow :=
  [mkRow 10010 "5" "7" "5" "5" 5 5 3, mkRow 10011 "5" "7" "5" "5" 5 5 3,
   mkRow 10012 "5" "7" "5" "6" 5 6 3]

/-- Three sorted rows, all with `open != close`; the start date lands on
the last row, so the first clean slices and the second clean is a no-op. -/
def exC5w : List RawRow :=
  [mkRow 10000 "5" "7" "5" "6" 5 6 3, mkRow 10001 "5" "7" "5" "6" 5 6 3,
   mkRow 10010 "5" "7" "5" "6" 5 6 3]

/-! ### Theorems -/

theorem cumulate_from_length (r0 : ℚ) (l : List ℚ) :
    (cumulate_from r0 l).length = l.length := by
  induction l generalizing r0 with
  | nil => rfl
  | cons x xs ih => simpa [cumulate_from] using ih _

theorem cumulate_from_getD (l : List ℚ) (r0 : ℚ) (i : Nat) (h : i < l.length) :
    (cumulate_from r0 l).getD i 0 =
      (1 + r0) * (∏ k ∈ Finset.range (i + 1), (1 + l.getD k 0)) - 1 := by
  induction l generalizing r0 i with
  | nil => simp at h
  | cons x xs ih =>
    cases i with
    | zero =>
      simp [cumulate_from, Finset.prod_range_one]
    | succ i =>
      have hi : i < xs.length := by simpa using h
      have hstep := ih ((1 + r0) * (1 + x) - 1) i hi
      have hprod : (∏ k ∈ Finset.range (i + 1 + 1), (1 + (x :: xs).getD k 0)) =
          (∏ k ∈ Finset.range (i + 1), (1 + xs.getD k 0)) * (1 + x) := by
        simpa using
          Finset.prod_range_succ' (fun k => (1 + (x :: xs).getD k 0)) (i + 1)
      calc (cumulate_from r0 (x :: xs)).getD (i + 1) 0
          = (cumulate_from ((1 + r0) * (1 + x) - 1) xs).getD i 0 := by
            simp [cumulate_from]
        _ = (1 + ((1 + r0) * (1 + x) - 1)) *
              (∏ k ∈ Finset.range (i + 1), (1 + xs.getD k 0)) - 1 := hstep
        _ = (1 + r0) * (∏ k ∈ Finset.range (i + 1 + 1), (1 + (x :: xs).getD k 0)) - 1 := by
            rw [hprod]; ring

/-- C4: for every return sequence `r`, `cumulate_returns r` has the same
length as `r`, its `i`-th entry equals `∏_{k=0..i} (1 + r[k]) - 1`, and
cumulating an all-zero sequence yields an all-zero sequence. -/
theorem cumulate_returns_spec (r : List ℚ) :
    (cumulate_returns r).length = r.length ∧
    (∀ i, i < r.length →
      (cumulate_returns r).getD i 0 =
        (∏ k ∈ Finset.range (i + 1), (1 + r.getD k 0)) - 1) ∧
    ((∀ x ∈ r, x = 0) → ∀ y ∈ cumulate_returns r, y = 0) := by
  refine ⟨cumulate_from_length 0 r, fun i hi => ?_, fun hz y hy => ?_⟩
  · simpa using cumulate_from_getD r 0 i hi
  · obtain ⟨i, hi, rfl⟩ := List.mem_iff_getElem.mp hy
    have hlen : i < r.length := by
      simpa [cumulate_returns, cumulate_from_length] using hi
    have hgetD : (cumulate_returns r).getD i 0 =
        (∏ k ∈ Finset.range (i + 1), (1 + r.getD k 0)) - 1 := by
      simpa using cumulate_from_getD r 0 i hlen
    have hall : ∀ k, r.getD k 0 = 0 := by
      intro k
      rcases lt_or_le k r.length with hk | hk
      · rw [List.getD_eq_getElem _ _ hk]
        exact hz _ (List.getElem_mem hk)
      · simp [List.getElem?_eq_none hk]
    have hzero : (cumulate_returns r).getD i 0 = 0 := by
      rw [hgetD]
      simp only [List.getD_eq_getElem?_getD] at hall
      simp [hall]
    rwa [List.getD_eq_getElem _ _ hi] at hzero

/-- C10: if every element of `r` is at least `-1`, then every element of
`cumulate_returns r` is at least `-1` (one plus each cumulated value is a
product of nonnegative factors). -/
theorem cumulate_returns_ge_neg_one (r : List ℚ) (h : ∀ x ∈ r, -1 ≤ x) :
    ∀ y ∈ cumulate_returns r, -1 ≤ y := by
  suffices hgen : ∀ (l : List ℚ) (r0 : ℚ), -1 ≤ r0 → (∀ x ∈ l, -1 ≤ x) →
      ∀ y ∈ cumulate_from r0 l, -1 ≤ y from
    hgen r 0 (by norm_num) h
  intro l
  induction l with
  | nil => intro r0 _ _ y hy; simp [cumulate_from] at hy
  | cons x xs ih =>
    intro r0 hr0 hl y hy
    have hx : -1 ≤ x := hl x (by simp)
    have hstep : -1 ≤ (1 + r0) * (1 + x) - 1 := by
      have h1 : (0:ℚ) ≤ 1 + r0 := by linarith
      have h2 : (0:ℚ) ≤ 1 + x := by linarith
      nlinarith
    rcases (by simpa [cumulate_from] using hy :
        y = (1 + r0) * (1 + x) - 1 ∨ y ∈ cumulate_from ((1 + r0) * (1 + x) - 1) xs) with
      rfl | hmem
    · exact hstep
    · exact ih _ hstep (fun z hz => hl z (by simp [hz])) y hmem

/-- Witness for C4 at `r = [1/2, 1/3]`. -/
theorem cumulate_returns_spec_witness :
    1 < ([(1:ℚ)/2, 1/3]).length ∧
    (cumulate_returns [(1:ℚ)/2, 1/3]).getD 1 0 =
      (∏ k ∈ Finset.range 2, (1 + ([(1:ℚ)/2, 1/3]).getD k 0)) - 1 :=
  ⟨by norm_num, (cumulate_returns_spec [(1:ℚ)/2, 1/3]).2.1 1 (by norm_num)⟩

/-- Witness for C10 at `r = [-1, 1/2]`. -/
theorem cumulate_returns_ge_neg_one_witness :
    (∀ x ∈ [(-1:ℚ), 1/2], -1 ≤ x) ∧ ∀ y ∈ cumulate_returns [(-1:ℚ), 1/2], -1 ≤ y := by
  have hall : ∀ x ∈ [(-1:ℚ), 1/2], -1 ≤ x := by
    intro x hx
    rcases List.mem_cons.mp hx with rfl | hx
    · norm_num
    · rcases List.mem_singleton.mp hx with rfl
      norm_num
  exact ⟨hall, cumulate_returns_ge_neg_one [(-1:ℚ), 1/2] hall⟩

theorem getD_map_range {f : Nat → ℚ} {n i : Nat} (hi : i < n) :
    ((List.range n).map f).getD i 0 = f i := by
  rw [List.getD_eq_getElem _ _ (by simpa using hi)]
  simp

/-- The intraday output is `price_close[i] / price_open[i] - 1`. -/
theorem intraday_getD (po pc pca : List ℚ) (dts : List Int) (i : Nat)
    (hi : i < dts.length) :
    (compute_returns_overnight_intraday po pc pca dts).2.getD i 0 =
      pc.getD i 0 / po.getD i 0 - 1 := by
  have hn : ¬ dts.length = 0 := by omega
  unfold compute_returns_overnight_intraday
  simp only [if_neg hn]
  exact getD_map_range hi

/-- The overnight output at index 0 is `0`. -/
theorem overnight_getD_zero (po pc pca : List ℚ) (dts : List Int)
    (hne : dts ≠ []) :
    (compute_returns_overnight_intraday po pc pca dts).1.getD 0 0 = 0 := by
  have hn : ¬ dts.length = 0 := by simpa using List.length_pos.mpr hne |>.ne'
  unfold compute_returns_overnight_intraday
  rw [if_neg hn]
  rfl

/-- The overnight output at index `j + 1 < n`: the gap-conditional residual
formula of the source. -/
theorem overnight_getD_succ (po pc pca : List ℚ) (dts : List Int) (j : Nat)
    (hj : j + 1 < dts.length) :
    (compute_returns_overnight_intraday po pc pca dts).1.getD (j + 1) 0 =
      if dts.getD (j + 1) 0 - dts.getD j 0 < 14
      then (1 + (pca.getD (j + 1) 0 / pca.getD j 0 - 1)) /
           (1 + (pc.getD (j + 1) 0 / po.getD (j + 1) 0 - 1)) - 1
      else 0 := by
  have hn : ¬ dts.length = 0 := by omega
  have hj' : j < dts.length - 1 := by omega
  unfold compute_returns_overnight_intraday
  simp only [if_neg hn, List.getD_cons_succ]
  rw [getD_map_range hj']
  by_cases hgap : dts.getD (j + 1) 0 - dts.getD j 0 < 14
  · rw [if_pos hgap, if_pos hgap, getD_map_range hj', getD_map_range hj]
  · rw [if_neg hgap, if_neg hgap]

/-- C2: for a non-empty cleaned series, `overnight[0] = 0`, and for
`i ≥ 1` the overnight return is the residual
`(1 + closeToClose[i]) / (1 + intraday[i]) - 1` when the calendar gap to
the previous row is under 14 days, and `0` when the gap is 14 days or
more, regardless of the close-to-close return. -/
theorem compute_returns_overnight_spec (po pc pca : List ℚ) (dts : List Int)
    (hpo : po.length = dts.length) (hpc : pc.length = dts.length)
    (hpca : pca.length = dts.length) (hne : dts ≠ []) :
    (compute_returns_overnight_intraday po pc pca dts).1.getD 0 0 = 0 ∧
    ∀ i, 1 ≤ i → i < dts.length →
      (dts.getD i 0 - dts.getD (i - 1) 0 < 14 →
        (compute_returns_overnight_intraday po pc pca dts).1.getD i 0 =
          (1 + (pca.getD i 0 / pca.getD (i - 1) 0 - 1)) /
          (1 + (compute_returns_overnight_intraday po pc pca dts).2.getD i 0) - 1) ∧
      (14 ≤ dts.getD i 0 - dts.getD (i - 1) 0 →
        (compute_returns_overnight_intraday po pc pca dts).1.getD i 0 = 0) := by
  refine ⟨overnight_getD_zero po pc pca dts hne, fun i h1 hi => ?_⟩
  obtain ⟨j, rfl⟩ : ∃ j, i = j + 1 := ⟨i - 1, by omega⟩
  have hsucc := overnight_getD_succ po pc pca dts j hi
  have hintr := intraday_getD po pc pca dts (j + 1) hi
  constructor
  · intro hgap
    simp only [Nat.add_sub_cancel] at hgap ⊢
    rw [hsucc, if_pos hgap, hintr]
  · intro hgap
    simp only [Nat.add_sub_cancel] at hgap
    rw [hsucc, if_neg (by omega)]

theorem residual_cancel (c t : ℚ) (h : 1 + t ≠ 0) :
    (1 + ((1 + c) / (1 + t) - 1)) * (1 + t) - 1 = c := by
  have hdiv : (1 + ((1 + c) / (1 + t) - 1)) = (1 + c) / (1 + t) := by ring
  rw [hdiv, div_mul_cancel₀ _ h]
  ring

/-- C3: on a cleaned series whose consecutive dates are less than 14 days
apart, with positive opens, nonzero closes and positive adjusted closes,
the decomposition multiplies back to the close-to-close return:
`(1 + overnight[i]) * (1 + intraday[i]) - 1 = adj[i]/adj[i-1] - 1`. -/
theorem decompose_reconstructs_close_to_close (po pc pca : List ℚ)
    (dts : List Int)
    (hpo : po.length = dts.length) (hpc : pc.length = dts.length)
    (hpca : pca.length = dts.length)
    (hgap : ∀ i, 1 ≤ i → i < dts.length →
      dts.getD i 0 - dts.getD (i - 1) 0 < 14)
    (hopen : ∀ i, i < dts.length → 0 < po.getD i 0)
    (hclose : ∀ i, i < dts.length → pc.getD i 0 ≠ 0)
    (hadj : ∀ i, i < dts.length → 0 < pca.getD i 0) :
    ∀ i, 1 ≤ i → i < dts.length →
      (1 + (compute_returns_overnight_intraday po pc pca dts).1.getD i 0) *
        (1 + (compute_returns_overnight_intraday po pc pca dts).2.getD i 0) - 1 =
      pca.getD i 0 / pca.getD (i - 1) 0 - 1 := by
  intro i h1 hi
  obtain ⟨j, rfl⟩ : ∃ j, i = j + 1 := ⟨i - 1, by omega⟩
  have hgapj : dts.getD (j + 1) 0 - dts.getD j 0 < 14 := by
    simpa using hgap (j + 1) (by omega) hi
  simp only [Nat.add_sub_cancel]
  rw [overnight_getD_succ po pc pca dts j hi, if_pos hgapj,
    intraday_getD po pc pca dts (j + 1) hi]
  have hratio : 1 + (pc.getD (j + 1) 0 / po.getD (j + 1) 0 - 1) =
      pc.getD (j + 1) 0 / po.getD (j + 1) 0 := by ring
  have hden : pc.getD (j + 1) 0 / po.getD (j + 1) 0 ≠ 0 :=
    div_ne_zero (hclose (j + 1) hi) (ne_of_gt (hopen (j + 1) hi))
  have h1t : 1 + (pc.getD (j + 1) 0 / po.getD (j + 1) 0 - 1) ≠ 0 := by
    rw [hratio]; exact hden
  exact residual_cancel _ _ h1t

/-- Witness for C2 at the two-day series
`po = [5,5], pc = [6,6], pca = [3,6], dts = [10000,10001]`. -/
theorem compute_returns_overnight_spec_witness :
    (compute_returns_overnight_intraday [5, 5] [6, 6] [3, 6]
        [10000, 10001]).1.getD 0 0 = 0 ∧
    (compute_returns_overnight_intraday [5, 5] [6, 6] [3, 6]
        [10000, 10001]).1.getD 1 0 =
      (1 + (([(3:ℚ), 6]).getD 1 0 / ([(3:ℚ), 6]).getD 0 0 - 1)) /
      (1 + (compute_returns_overnight_intraday [5, 5] [6, 6] [3, 6]
        [10000, 10001]).2.getD 1 0) - 1 := by
  have h := compute_returns_overnight_spec [5, 5] [6, 6] [3, 6] [10000, 10001]
    rfl rfl rfl (by simp)
  refine ⟨h.1, ?_⟩
  have h2 := (h.2 1 le_rfl (by norm_num)).1 (by norm_num [List.getD])
  simpa using h2

/-- Witness for C3 at the two-day series
`po = [1,1], pc = [2,2], pca = [1,2], dts = [0,1]`. -/
theorem decompose_reconstructs_witness :
    (1 + (compute_returns_overnight_intraday [1, 1] [2, 2] [1, 2]
        [0, 1]).1.getD 1 0) *
      (1 + (compute_returns_overnight_intraday [1, 1] [2, 2] [1, 2]
        [0, 1]).2.getD 1 0) - 1 =
      ([(1:ℚ), 2]).getD 1 0 / ([(1:ℚ), 2]).getD 0 0 - 1 := by
  have h := decompose_reconstructs_close_to_close [1, 1] [2, 2] [1, 2] [0, 1]
    rfl rfl rfl
    (fun i h1 hi => by norm_num at hi; interval_cases i; norm_num [List.getD])
    (fun i hi => by norm_num at hi; interval_cases i <;> norm_num [List.getD])
    (fun i hi => by norm_num at hi; interval_cases i <;> norm_num [List.getD])
    (fun i hi => by norm_num at hi; interval_cases i <;> norm_num [List.getD])
    1 le_rfl (by norm_num)
  simpa using h

/-- C7: `clean` fails with the data-integrity error precisely when some
row surviving the exclusion, flat-row and non-positive-open filters has
`adjustedClose <= 0`; such a row is never silently dropped, and with no
such row the error is not raised. -/
theorem clean_integrity_error_iff (rows : List RawRow)
    (startDate? endDate? : Option Int) (bad : List Int) :
    cleanRowsE rows startDate? endDate? bad = .error .integrity ↔
      ∃ r ∈ filteredRows rows bad, r.price_close_adj ≤ 0 := by
  unfold cleanRowsE
  by_cases h : (filteredRows rows bad).any (fun r => decide (r.price_close_adj ≤ 0))
  · simp only [if_pos h, true_iff]
    simpa using h
  · rw [if_neg h]
    constructor
    · intro hcontra
      exfalso
      revert hcontra
      split
      · split <;> simp
      · simp
    · intro hex
      exact absurd (by simpa using hex) h

/-- Witness for C7: a single row with `adjustedClose = -1` passes the
earlier filters and makes `clean` raise the integrity error. -/
theorem clean_integrity_error_witness :
    (∃ r ∈ filteredRows
        [{ date := 10000, openS := "5", highS := "6", lowS := "5", closeS := "6",
           price_open := 5, price_close := 6, price_close_adj := -1,
           isNull := false }] [], r.price_close_adj ≤ 0) ∧
    cleanRowsE
        [{ date := 10000, openS := "5", highS := "6", lowS := "5", closeS := "6",
           price_open := 5, price_close := 6, price_close_adj := -1,
           isNull := false }] none none [] = .error .integrity := by
  have hex : ∃ r ∈ filteredRows
      [{ date := 10000, openS := "5", highS := "6", lowS := "5", closeS := "6",
         price_open := 5, price_close := 6, price_close_adj := (-1 : ℚ),
         isNull := false }] [], r.price_close_adj ≤ 0 :=
    ⟨{ date := 10000, openS := "5", highS := "6", lowS := "5", closeS := "6",
       price_open := 5, price_close := 6, price_close_adj := (-1 : ℚ),
       isNull := false }, by decide, by norm_num⟩
  exact ⟨hex, (clean_integrity_error_iff _ none none []).mpr hex⟩

theorem firstIdx_none_iff {p : α → Bool} {l : List α} :
    firstIdx p l = none ↔ ∀ x ∈ l, ¬ p x := by
  induction l with
  | nil => simp [firstIdx]
  | cons x xs ih =>
    by_cases hx : p x
    · simp [firstIdx, hx]
    · simp [firstIdx, hx, ih]

theorem firstIdx_isSome_of_mem {p : α → Bool} {l : List α} {x : α}
    (hx : x ∈ l) (hp : p x) : (firstIdx p l).isSome := by
  rcases hidx : firstIdx p l with _ | i
  · exact absurd hp (firstIdx_none_iff.mp hidx x hx)
  · rfl

theorem firstIdx_some_lt {p : α → Bool} {l : List α} {i : Nat}
    (h : firstIdx p l = some i) : i < l.length := by
  induction l generalizing i with
  | nil => simp [firstIdx] at h
  | cons x xs ih =>
    by_cases hx : p x
    · simp [firstIdx, hx] at h
      subst h
      simp
    · simp [firstIdx, hx] at h
      rcases h with ⟨j, hj, rfl⟩
      have := ih hj
      simpa using Nat.succ_lt_succ this

theorem firstIdx_some_sat {p : α → Bool} {l : List α} {i : Nat}
    (h : firstIdx p l = some i) : ∃ x, l[i]? = some x ∧ p x := by
  induction l generalizing i with
  | nil => simp [firstIdx] at h
  | cons x xs ih =>
    by_cases hx : p x
    · simp [firstIdx, hx] at h
      subst h
      exact ⟨x, by simp, hx⟩
    · simp [firstIdx, hx] at h
      rcases h with ⟨j, hj, rfl⟩
      simpa using ih hj

theorem firstIdx_some_min {p : α → Bool} {l : List α} {i : Nat}
    (h : firstIdx p l = some i) :
    ∀ j x, j < i → l[j]? = some x → ¬ p x := by
  induction l generalizing i with
  | nil => simp [firstIdx] at h
  | cons y ys ih =>
    by_cases hy : p y
    · simp [firstIdx, hy] at h
      omega
    · simp [firstIdx, hy] at h
      rcases h with ⟨i', hi', rfl⟩
      intro j x hj hget
      cases j with
      | zero =>
        simp at hget
        subst hget
        exact hy
      | succ j =>
        simp at hget
        exact ih hi' j x (by omega) hget

theorem firstIdx_cons_zero {p : α → Bool} {x : α} {xs : List α} (hx : p x) :
    firstIdx p (x :: xs) = some 0 := by
  simp [firstIdx, hx]

theorem maxDate_foldl_spec (rs : List RawRow) (a : Int) :
    (rs.foldl (fun m x => max m x.date) a = a ∨
      ∃ r ∈ rs, r.date = rs.foldl (fun m x => max m x.date) a) ∧
    a ≤ rs.foldl (fun m x => max m x.date) a ∧
    ∀ r ∈ rs, r.date ≤ rs.foldl (fun m x => max m x.date) a := by
  induction rs generalizing a with
  | nil => simp
  | cons x xs ih =>
    obtain ⟨hatt, hle, hall⟩ := ih (max a x.date)
    refine ⟨?_, ?_, ?_⟩
    · rcases hatt with heq | ⟨r, hr, hrd⟩
      · rcases max_cases a x.date with ⟨hmax, _⟩ | ⟨hmax, _⟩
        · left; simpa [List.foldl_cons, hmax] using heq
        · right
          exact ⟨x, by simp, by simpa [List.foldl_cons, hmax] using heq.symm⟩
      · right
        exact ⟨r, by simp [hr], by simpa [List.foldl_cons] using hrd⟩
    · calc a ≤ max a x.date := le_max_left _ _
        _ ≤ _ := by simpa [List.foldl_cons] using hle
    · intro r hr
      rcases List.mem_cons.mp hr with rfl | hr
      · calc r.date ≤ max a r.date := le_max_right _ _
          _ ≤ _ := by simpa [List.foldl_cons] using hle
      · simpa [List.foldl_cons] using hall r hr

theorem maxDate_attained {l : List RawRow} {m : Int} (h : maxDate l = some m) :
    ∃ r ∈ l, r.date = m := by
  cases l with
  | nil => simp [maxDate] at h
  | cons x xs =>
    simp only [maxDate, Option.some.injEq] at h
    subst h
    rcases (maxDate_foldl_spec xs x.date).1 with heq | ⟨r, hr, hrd⟩
    · exact ⟨x, by simp, heq.symm⟩
    · exact ⟨r, by simp [hr], hrd⟩

theorem maxDate_ub {l : List RawRow} {m : Int} (h : maxDate l = some m) :
    ∀ r ∈ l, r.date ≤ m := by
  cases l with
  | nil => simp [maxDate] at h
  | cons x xs =>
    simp only [maxDate, Option.some.injEq] at h
    subst h
    obtain ⟨_, hle, hall⟩ := maxDate_foldl_spec xs x.date
    intro r hr
    rcases List.mem_cons.mp hr with rfl | hr
    · exact hle
    · exact hall r hr

theorem maxDate_isSome {l : List RawRow} (h : l ≠ []) : (maxDate l).isSome := by
  cases l with
  | nil => exact absurd rfl h
  | cons x xs => rfl

/-- Membership in the filtered rows means passing all three comprehensions. -/
theorem mem_filteredRows {rows : List RawRow} {bad : List Int} {r : RawRow}
    (h : r ∈ filteredRows rows bad) :
    r ∈ rows ∧ passesNullBad bad r ∧ passesFlat r ∧ passesOpen r := by
  unfold filteredRows at h
  have h3 := List.mem_filter.mp h
  have h2 := List.mem_filter.mp h3.1
  have h1 := List.mem_filter.mp h2.1
  exact ⟨h1.1, h1.2, h2.2, h3.2⟩

/-- Rows already passing all three comprehensions are a fixpoint of the
filtering (with an empty exclusion list they always pass the first one). -/
theorem filteredRows_fixpoint {l : List RawRow}
    (h : ∀ r ∈ l, !r.isNull ∧ passesFlat r ∧ passesOpen r) :
    filteredRows l [] = l := by
  unfold filteredRows
  have h1 : l.filter (passesNullBad []) = l :=
    List.filter_eq_self.mpr (fun r hr => by simpa [passesNullBad] using (h r hr).1)
  rw [h1]
  have h2 : l.filter passesFlat = l :=
    List.filter_eq_self.mpr (fun r hr => (h r hr).2.1)
  rw [h2]
  exact List.filter_eq_self.mpr (fun r hr => (h r hr).2.2)

/-- Elimination principle for a successful `cleanRowsE` run: the integrity
scan found nothing, all three index computations succeeded, and the output
is the `[d0:d1]` slice when `d0 > 1 or d1 < len` and the whole filtered
list otherwise, exactly as in the source. -/
theorem cleanRowsE_ok_cases {rows : List RawRow} {s e : Option Int}
    {bad : List Int} {out : List RawRow}
    (h : cleanRowsE rows s e bad = .ok out) :
    ((filteredRows rows bad).any fun r => decide (r.price_close_adj ≤ 0)) = false ∧
    ∃ a b m d1,
      firstIdx openNeqClose (filteredRows rows bad) = some a ∧
      firstIdx (afterStart (s.getD DEFAULT_START_DATE)) (filteredRows rows bad)
        = some b ∧
      maxDate (filteredRows rows bad) = some m ∧
      (if (e.getD DEFAULT_END_DATE) < m
        then firstIdx (afterEnd (e.getD DEFAULT_END_DATE)) (filteredRows rows bad)
        else some (filteredRows rows bad).length) = some d1 ∧
      out = if 1 < max a b ∨ d1 < (filteredRows rows bad).length
        then ((filteredRows rows bad).drop (max a b)).take (d1 - max a b)
        else filteredRows rows bad := by
  unfold cleanRowsE at h
  by_cases hany : ((filteredRows rows bad).any fun r => decide (r.price_close_adj ≤ 0))
  · rw [if_pos hany] at h
    exact absurd h (by simp)
  · rw [if_neg hany] at h
    refine ⟨by simpa using hany, ?_⟩
    revert h
    split
    · rename_i a b m ha hb hm
      split
      · rename_i d1 hd1
        intro h
        have hout := (Except.ok.inj h).symm
        exact ⟨a, b, m, d1, ha, hb, hm, hd1, hout⟩
      · intro h
        exact absurd h (by simp)
    · intro h
      exact absurd h (by simp)

/-- Every row of a successful clean is one of the filtered rows. -/
theorem cleanRowsE_ok_subset {rows : List RawRow} {s e : Option Int}
    {bad : List Int} {out : List RawRow}
    (h : cleanRowsE rows s e bad = .ok out) :
    out ⊆ filteredRows rows bad := by
  obtain ⟨-, a, b, m, d1, -, -, -, -, hout⟩ := cleanRowsE_ok_cases h
  subst hout
  split
  · exact fun r hr =>
      List.drop_subset _ _ (List.take_subset _ _ hr)
  · exact fun r hr => hr

theorem map_getD_lt {α β : Type} (f : α → β) (l : List α) (d : β) {i : Nat}
    (h : i < l.length) : (l.map f).getD i d = f (l.get ⟨i, h⟩) := by
  rw [List.getD_eq_getElem _ _ (by simpa using h)]
  simp

/-- C1 counterexample: on `exC1` we get `d0 = max 1 0 = 1` and
`d1 = 2 = len`, so the source's `if d0 > 1 or d1 < len:` guard skips the
slicing and the filtered row with index `0 < d0` is returned anyway. -/
theorem clean_slice_counterexample : ¬ CleanSliceClaim := by
  intro hclaim
  have h := hclaim exC1 none none [] exC1 1 0 (by decide) (by decide) (by decide)
  exact absurd h (by decide)

/-- C1 (amended): a successful clean returns the `[d0, d1)` slice of the
filtered sequence when `d0 > 1` or `d1 < len`, and the whole filtered
sequence otherwise (in particular, with `d0 = 1` and `d1 = len` the row
below `d0` is retained). -/
theorem clean_slice_amended (rows : List RawRow) (s e : Option Int)
    (bad : List Int) (out : List RawRow) (a b : Nat)
    (hok : cleanRowsE rows s e bad = .ok out)
    (ha : firstIdx openNeqClose (filteredRows rows bad) = some a)
    (hb : firstIdx (afterStart (s.getD DEFAULT_START_DATE))
      (filteredRows rows bad) = some b) :
    out = if 1 < max a b ∨
        (firstIdx (afterEnd (e.getD DEFAULT_END_DATE))
          (filteredRows rows bad)).getD (filteredRows rows bad).length
          < (filteredRows rows bad).length
      then claimedWindow (filteredRows rows bad) (max a b)
        ((firstIdx (afterEnd (e.getD DEFAULT_END_DATE))
          (filteredRows rows bad)).getD (filteredRows rows bad).length)
      else filteredRows rows bad := by
  obtain ⟨-, a', b', m, d1, ha', hb', hm, hd1, hout⟩ := cleanRowsE_ok_cases hok
  have haa : a' = a := by rw [ha] at ha'; exact (Option.some.inj ha').symm
  have hbb : b' = b := by rw [hb] at hb'; exact (Option.some.inj hb').symm
  subst haa hbb
  have hclaimD1 : (firstIdx (afterEnd (e.getD DEFAULT_END_DATE))
      (filteredRows rows bad)).getD (filteredRows rows bad).length = d1 := by
    by_cases hcase : (e.getD DEFAULT_END_DATE) < m
    · rw [if_pos hcase] at hd1
      rw [hd1]
      rfl
    · rw [if_neg hcase] at hd1
      have hnone : firstIdx (afterEnd (e.getD DEFAULT_END_DATE))
          (filteredRows rows bad) = none := by
        refine firstIdx_none_iff.mpr (fun r hr => ?_)
        have hle := maxDate_ub hm r hr
        simp only [afterEnd, decide_eq_true_eq]
        push_neg at hcase
        omega
      rw [hnone]
      simpa using Option.some.inj hd1
  rw [hclaimD1]
  exact hout

/-- Witness for the amended C1 at `exC1` (the unsliced branch). -/
theorem clean_slice_amended_witness :
    cleanRowsE exC1 none none [] = .ok exC1 ∧
    exC1 = if 1 < max 1 0 ∨
        (firstIdx (afterEnd ((none : Option Int).getD DEFAULT_END_DATE))
          (filteredRows exC1 [])).getD (filteredRows exC1 []).length
          < (filteredRows exC1 []).length
      then claimedWindow (filteredRows exC1 []) (max 1 0)
        ((firstIdx (afterEnd ((none : Option Int).getD DEFAULT_END_DATE))
          (filteredRows exC1 [])).getD (filteredRows exC1 []).length)
      else filteredRows exC1 [] :=
  ⟨by decide, clean_slice_amended exC1 none none [] exC1 1 0
    (by decide) (by decide) (by decide)⟩

theorem parseDec_ten_one_frac : parseDec "10.0" = some 10 := by
  have h : parseDecRaw "10.0" = some (100, 1) := by decide
  simp [parseDec, h, decValue]
  norm_num

theorem parseDec_ten_two_frac : parseDec "10.00" = some 10 := by
  have h : parseDecRaw "10.00" = some (1000, 2) := by decide
  simp [parseDec, h, decValue]
  norm_num

theorem parseDec_five : parseDec "5" = some 5 := by
  have h : parseDecRaw "5" = some (5, 0) := by decide
  simp [parseDec, h, decValue]

theorem parseDec_six : parseDec "6" = some 6 := by
  have h : parseDecRaw "6" = some (6, 0) := by decide
  simp [parseDec, h, decValue]

/-- C6 counterexample: the source's filter `len(set(d[1:5])) > 1` compares
the textual fields, so the row `10.0,10.00,10.0,10.0` — numerically flat —
survives cleaning. -/
theorem stale_row_counterexample : ¬ StaleRowClaim := by
  intro hclaim
  have hwf : ∀ x ∈ exC6, Row.wf x := by
    intro x hx
    rcases List.mem_cons.mp hx with rfl | hx
    · exact ⟨parseDec_ten_one_frac, parseDec_ten_one_frac⟩
    · rcases List.mem_singleton.mp hx with rfl
      exact ⟨parseDec_five, parseDec_six⟩
  have hflat : numericallyFlat exC6flat :=
    ⟨10, parseDec_ten_one_frac, parseDec_ten_two_frac,
      parseDec_ten_one_frac, parseDec_ten_one_frac⟩
  exact hclaim exC6 none none [] exC6 exC6flat hwf (by decide) (by decide)
    hflat (by decide)

/-- C6 (amended): a row whose four price fields are *textually* identical
(which is what `len(set(d[1:5])) > 1` tests) is absent from any successful
clean's result, regardless of its date. -/
theorem stale_row_amended (rows : List RawRow) (s e : Option Int)
    (bad : List Int) (out : List RawRow) (r : RawRow)
    (hok : cleanRowsE rows s e bad = .ok out)
    (h1 : r.openS = r.highS) (h2 : r.highS = r.lowS) (h3 : r.lowS = r.closeS) :
    r ∉ out := by
  intro hmem
  have hflat := (mem_filteredRows (cleanRowsE_ok_subset hok hmem)).2.2.1
  simp [passesFlat, h1, h2, h3] at hflat

/-- Witness for the amended C6: the textually flat row is dropped. -/
theorem stale_row_amended_witness :
    cleanRowsE [exC6textflat, exC6other] none none [] = .ok [exC6other] ∧
    exC6textflat ∉ [exC6other] :=
  ⟨by decide, stale_row_amended [exC6textflat, exC6other] none none []
    [exC6other] exC6textflat (by decide) rfl rfl rfl⟩

/-- C9 counterexample: clean never filters `close == 0`, so a cleaned
series can make `1 + intraday[1] = 0` under a small date gap. -/
theorem div_safety_counterexample : ¬ DivSafetyClaim := by
  intro hclaim
  have h := (hclaim exC9 none none [] exC9 (by decide)).2 0 (by decide) (by decide)
  apply h
  norm_num [exC9, mkRow, List.getD]

/-- C9 (amended): on any successful clean, every open is positive, so the
intraday division is safe; the overnight denominator `1 + intraday[i]` is
nonzero under the additional assumption — not enforced by clean — that
every close is nonzero (close tracks a live market). -/
theorem div_safety_amended (rows : List RawRow) (s e : Option Int)
    (bad : List Int) (out : List RawRow)
    (hok : cleanRowsE rows s e bad = .ok out)
    (hclose : ∀ r ∈ out, r.price_close ≠ 0) :
    divSafe (out.map (·.price_open)) (out.map (·.price_close))
      (out.map (·.date)) := by
  have hopen : ∀ r ∈ out, 0 < r.price_open := fun r hr => by
    have hp := (mem_filteredRows (cleanRowsE_ok_subset hok hr)).2.2.2
    simpa [passesOpen] using hp
  constructor
  · intro i hi
    have hi' : i < out.length := by simpa using hi
    rw [map_getD_lt _ _ _ hi']
    exact ne_of_gt (hopen _ (List.get_mem out i hi'))
  · intro j hj hgap
    have hj' : j + 1 < out.length := by simpa using hj
    rw [map_getD_lt _ _ _ hj', map_getD_lt _ _ _ hj']
    have hrw : 1 + ((out.get ⟨j + 1, hj'⟩).price_close /
        (out.get ⟨j + 1, hj'⟩).price_open - 1) =
        (out.get ⟨j + 1, hj'⟩).price_close /
        (out.get ⟨j + 1, hj'⟩).price_open := by ring
    rw [hrw]
    exact div_ne_zero (hclose _ (List.get_mem out _ hj'))
      (ne_of_gt (hopen _ (List.get_mem out _ hj')))

/-- Witness for the amended C9 at `exC1` (both closes nonzero). -/
theorem div_safety_amended_witness :
    (∀ r ∈ exC1, r.price_close ≠ 0) ∧
    divSafe (exC1.map (·.price_open)) (exC1.map (·.price_close))
      (exC1.map (·.date)) := by
  have hclose : ∀ r ∈ exC1, r.price_close ≠ 0 := by
    intro r hr
    rcases List.mem_cons.mp hr with rfl | hr
    · norm_num [mkRow]
    · rcases List.mem_singleton.mp hr with rfl
      norm_num [mkRow]
  exact ⟨hclose, div_safety_amended exC1 none none [] exC1 (by decide) hclose⟩

/-- C8 counterexample: excluding every row's date makes
`[...].index(True)` act on an empty list, so clean raises `ValueError`
instead of returning an empty series. -/
theorem empty_clean_counterexample : ¬ EmptyCleanClaim := by
  intro hclaim
  have h := hclaim exC1 none none [10000, 10001] (by decide)
  exact absurd h (by decide)

/-- C8 (amended): when the filters remove every row clean raises an
uncaught `ValueError`; an empty cleaned series (reachable through the date
window) is nonetheless safe downstream: the decomposition returns empty
lists, cumulation returns an empty list, and `get_plot_data` returns
`None` rather than indexing an empty sequence. -/
theorem empty_clean_amended (rows : List RawRow) (s e : Option Int)
    (bad : List Int) (h : filteredRows rows bad = []) :
    cleanRowsE rows s e bad = .error .valueError ∧
    compute_returns_overnight_intraday [] [] [] [] = ([], []) ∧
    cumulate_returns [] = [] ∧
    get_plot_data_from_clean [] = none := by
  refine ⟨?_, rfl, rfl, rfl⟩
  unfold cleanRowsE
  rw [h]
  rfl

/-- Witness for the amended C8: both rows of `exC1` excluded. -/
theorem empty_clean_amended_witness :
    filteredRows exC1 [10000, 10001] = [] ∧
    cleanRowsE exC1 none none [10000, 10001] = .error .valueError :=
  ⟨by decide,
    (empty_clean_amended exC1 none none [10000, 10001] (by decide)).1⟩

theorem filteredRows_sublist (rows : List RawRow) (bad : List Int) :
    List.Sublist (filteredRows rows bad) rows :=
  (List.filter_sublist _).trans ((List.filter_sublist _).trans
    (List.filter_sublist _))

theorem mem_drop_take {l : List α} {n k : Nat} {x : α}
    (h : x ∈ (l.drop n).take k) :
    ∃ j, n ≤ j ∧ j < n + k ∧ l[j]? = some x := by
  obtain ⟨i, hi⟩ := List.mem_iff_getElem?.mp h
  have hik : i < k := by
    by_contra hik
    rw [List.getElem?_take_eq_none (by omega)] at hi
    exact Option.noConfusion hi
  rw [List.getElem?_take_of_lt hik, List.getElem?_drop] at hi
  exact ⟨n + i, by omega, by omega, hi⟩

theorem pairwise_dates_le {l : List RawRow}
    (hp : l.Pairwise (fun r r' => r.date ≤ r'.date)) {i j : Nat} {x y : RawRow}
    (hij : i ≤ j) (hx : l[i]? = some x) (hy : l[j]? = some y) :
    x.date ≤ y.date := by
  rcases Nat.eq_or_lt_of_le hij with rfl | hlt
  · rw [hx] at hy
    obtain rfl := Option.some.inj hy
    exact le_refl _
  · have hjl : j < l.length := by
      by_contra hjl
      rw [List.getElem?_eq_none (by omega)] at hy
      exact Option.noConfusion hy
    have hil : i < l.length := by omega
    have hr := List.pairwise_iff_getElem.mp hp i j hil hjl hlt
    rw [List.getElem?_eq_getElem hil] at hx
    rw [List.getElem?_eq_getElem hjl] at hy
    obtain rfl := Option.some.inj hx
    obtain rfl := Option.some.inj hy
    exact hr

/-- Introduction principle for `cleanRowsE`: when the integrity scan is
clean and the three index computations evaluate as given, the result is
the source's guarded slice. -/
theorem cleanRowsE_eq_of (rows : List RawRow) (s e : Option Int)
    (bad : List Int) (a b : Nat) (m : Int) (d1 : Nat)
    (hany : ((filteredRows rows bad).any
      fun r => decide (r.price_close_adj ≤ 0)) = false)
    (ha : firstIdx openNeqClose (filteredRows rows bad) = some a)
    (hb : firstIdx (afterStart (s.getD DEFAULT_START_DATE))
      (filteredRows rows bad) = some b)
    (hm : maxDate (filteredRows rows bad) = some m)
    (hd1 : (if (e.getD DEFAULT_END_DATE) < m
      then firstIdx (afterEnd (e.getD DEFAULT_END_DATE)) (filteredRows rows bad)
      else some (filteredRows rows bad).length) = some d1) :
    cleanRowsE rows s e bad = .ok
      (if 1 < max a b ∨ d1 < (filteredRows rows bad).length
        then ((filteredRows rows bad).drop (max a b)).take (d1 - max a b)
        else filteredRows rows bad) := by
  unfold cleanRowsE
  simp only [hany, Bool.false_eq_true, if_false, ha, hb, hm, hd1]

/-- C5 counterexample: the first clean of `exC5` keeps the two leading
`open == close` rows (the start-date rule chose `d0`), and the second
clean's `open != close` rule then strips them. -/
theorem clean_idempotent_counterexample : ¬ CleanIdempotentClaim := by
  intro hclaim
  have h := hclaim exC5 (some 10010) none [] exC5out (by decide)
  exact absurd h (by decide)

/-- C5 (amended): cleaning is idempotent for date-sorted input whenever
the produced series is non-empty and its first row has `open != close`
(when the start-date rule leaves leading `open == close` rows in front,
a second clean strips them or fails, as the counterexample shows). -/
theorem clean_idempotent_amended (rows : List RawRow) (s e : Option Int)
    (bad : List Int) (out : List RawRow) (r0 : RawRow)
    (hsort : rows.Pairwise (fun r r' => r.date ≤ r'.date))
    (hok : cleanRowsE rows s e bad = .ok out)
    (hhead : out.head? = some r0)
    (hoc : r0.price_open ≠ r0.price_close) :
    cleanRowsE out s e [] = .ok out := by
  obtain ⟨hany, a, b, m, d1, ha, hb, hm, hd1, hout⟩ := cleanRowsE_ok_cases hok
  have hpair : (filteredRows rows bad).Pairwise
      (fun r r' => r.date ≤ r'.date) :=
    List.Pairwise.sublist (filteredRows_sublist rows bad) hsort
  have hsub : out ⊆ filteredRows rows bad := cleanRowsE_ok_subset hok
  have hfix : filteredRows out [] = out := by
    apply filteredRows_fixpoint
    intro r hr
    obtain ⟨-, hnb, hfl, hop⟩ := mem_filteredRows (hsub hr)
    refine ⟨?_, hfl, hop⟩
    simp only [passesNullBad, Bool.and_eq_true] at hnb
    exact hnb.1
  have hany2 : ((filteredRows out []).any
      fun r => decide (r.price_close_adj ≤ 0)) = false := by
    rw [hfix]
    exact List.any_eq_false.mpr fun x hx =>
      List.any_eq_false.mp hany x (hsub hx)
  have hne : out ≠ [] := by
    intro hemp
    rw [hemp] at hhead
    exact Option.noConfusion hhead
  have hhead0 : out[0]? = some r0 := by
    rw [← List.head?_eq_getElem?]
    exact hhead
  have ha2 : firstIdx openNeqClose (filteredRows out []) = some 0 := by
    rw [hfix]
    cases out with
    | nil => exact absurd rfl hne
    | cons o os =>
      obtain rfl : o = r0 := by simpa using hhead
      exact firstIdx_cons_zero (by simpa [openNeqClose] using hoc)
  by_cases hg : 1 < max a b ∨ d1 < (filteredRows rows bad).length
  · -- the first clean sliced: out = data[d0:d1]
    rw [if_pos hg] at hout
    -- the head of the slice is data[d0]
    have h0 : (((filteredRows rows bad).drop (max a b)).take
        (d1 - max a b))[0]? = some r0 := by
      rw [← hout]
      exact hhead0
    have hkpos : 0 < d1 - max a b := by
      by_contra hk
      rw [List.getElem?_take_eq_none (by omega)] at h0
      exact Option.noConfusion h0
    rw [List.getElem?_take_of_lt hkpos, List.getElem?_drop, Nat.add_zero] at h0
    -- the start bound holds at the head
    obtain ⟨xb, hxb, hxbp⟩ := firstIdx_some_sat hb
    have hxbs : s.getD DEFAULT_START_DATE ≤ xb.date := by
      simpa [afterStart] using hxbp
    have hbdate : xb.date ≤ r0.date :=
      pairwise_dates_le hpair (le_max_right a b) hxb h0
    have hb2 : firstIdx (afterStart (s.getD DEFAULT_START_DATE))
        (filteredRows out []) = some 0 := by
      rw [hfix]
      cases out with
      | nil => exact absurd rfl hne
      | cons o os =>
        obtain rfl : o = r0 := by simpa using hhead
        exact firstIdx_cons_zero (by simp [afterStart]; omega)
    -- every date of out is within the end bound
    have hdateub : ∀ r ∈ out, r.date ≤ e.getD DEFAULT_END_DATE := by
      intro r hr
      rw [hout] at hr
      obtain ⟨j, hj1, hj2, hjget⟩ := mem_drop_take hr
      by_cases hcase : (e.getD DEFAULT_END_DATE) < m
      · rw [if_pos hcase] at hd1
        have hjd1 : j < d1 := by omega
        have hnotafter := firstIdx_some_min hd1 j r hjd1 hjget
        have : ¬ (e.getD DEFAULT_END_DATE) < r.date := by
          simpa [afterEnd] using hnotafter
        omega
      · have hrmem : r ∈ filteredRows rows bad :=
          List.mem_iff_getElem?.mpr ⟨j, hjget⟩
        have := maxDate_ub hm r hrmem
        push_neg at hcase
        omega
    obtain ⟨m2, hm2⟩ := Option.isSome_iff_exists.mp (maxDate_isSome hne)
    obtain ⟨rm, hrm, hrmd⟩ := maxDate_attained hm2
    have hm2le : m2 ≤ e.getD DEFAULT_END_DATE := hrmd ▸ hdateub rm hrm
    have hm2' : maxDate (filteredRows out []) = some m2 := by
      rw [hfix]
      exact hm2
    have hd12 : (if (e.getD DEFAULT_END_DATE) < m2
        then firstIdx (afterEnd (e.getD DEFAULT_END_DATE)) (filteredRows out [])
        else some (filteredRows out []).length) = some out.length := by
      rw [if_neg (by omega), hfix]
    have hres := cleanRowsE_eq_of out s e [] 0 0 m2 out.length
      hany2 ha2 hb2 hm2' hd12
    rw [hres, hfix]
    rw [if_neg (by simp)]
  · -- the first clean did not slice: out is the whole filtered list and
    -- the second clean replays the identical computation
    rw [if_neg hg] at hout
    subst hout
    have ha3 : firstIdx openNeqClose
        (filteredRows (filteredRows rows bad) []) = some a := by
      rw [hfix]
      exact ha
    have hb3 : firstIdx (afterStart (s.getD DEFAULT_START_DATE))
        (filteredRows (filteredRows rows bad) []) = some b := by
      rw [hfix]
      exact hb
    have hm3 : maxDate (filteredRows (filteredRows rows bad) []) = some m := by
      rw [hfix]
      exact hm
    have hd13 : (if (e.getD DEFAULT_END_DATE) < m
        then firstIdx (afterEnd (e.getD DEFAULT_END_DATE))
          (filteredRows (filteredRows rows bad) [])
        else some (filteredRows (filteredRows rows bad) []).length)
        = some d1 := by
      rw [hfix]
      exact hd1
    have hres := cleanRowsE_eq_of (filteredRows rows bad) s e [] a b m d1
      hany2 ha3 hb3 hm3 hd13
    rw [hres, hfix]
    rw [if_neg hg]

/-- Witness for the amended C5 at `exC5w`. -/
theorem clean_idempotent_amended_witness :
    cleanRowsE exC5w (some 10010) none [] =
      .ok [mkRow 10010 "5" "7" "5" "6" 5 6 3] ∧
    cleanRowsE [mkRow 10010 "5" "7" "5" "6" 5 6 3] (some 10010) none [] =
      .ok [mkRow 10010 "5" "7" "5" "6" 5 6 3] := by
  refine ⟨by decide, clean_idempotent_amended exC5w (some 10010) none []
    [mkRow 10010 "5" "7" "5" "6" 5 6 3] (mkRow 10010 "5" "7" "5" "6" 5 6 3)
    ?_ (by decide) rfl ?_⟩
  · decide
  · norm_num [mkRow]

end SuspiciousReturns
